import Mathlib

set_option maxRecDepth 100000

/-!
Verification of the rift-rewind value-scoring, partitioning and
chapter-orchestration pipeline.

The Lean definitions below are shallow embeddings of the Python sources:

* `CreateJourney.*`  embeds `create_journey.py` (partitioning in `main`,
  `choose_region_arc`, `calculate_stats_from_preprocessed`, and the
  value computation of `process_quarter_matches`);
* `StatsInference.*` embeds `infra/src/stats_inference.py`
  (`WEIGHTS`, `score_values`, `zscore_rows`, `aggregate_mean`,
  `universalism_bonus`);
* `AdvancedAnalytics.*` embeds the trend analysis of
  `infra/src/advanced_analytics.py` (`calculate_trends`,
  `trend_direction`);
* `Common.*` embeds `infra/src/common.py`
  (`divide_matches_into_quarters`);
* `FetchQuarter.*` embeds the job/state-machine logic of
  `infra/src/fetch_quarter.py` (`handler`, `process_fetch`,
  `process_fetch_all`), with the external collaborators (Riot API,
  S3, SQS) abstracted into explicit parameters.

Numbers are modeled as exact rationals (Python floats on the inputs at
hand), except the z-score normalizer which needs a real square root.
Python dicts are modeled as association lists in insertion order;
Python `sorted` (a stable sort) is modeled by `List.insertionSort`,
which is stable.
-/

namespace PyDict

/-- Dictionary lookup with default, `d.get(k, default)` in Python. -/
def dget {β : Type} (l : List (String × β)) (k : String) (d : β) : β :=
  match l.find? (fun p => p.1 == k) with
  | some p => p.2
  | none => d

/-- Dictionary update `d[k] = v` in Python: replaces the value in place if
the key is present (keeping its position), otherwise appends the binding. -/
def dset {β : Type} (l : List (String × β)) (k : String) (v : β) :
    List (String × β) :=
  if (l.find? (fun p => p.1 == k)).isSome then
    l.map (fun p => if p.1 == k then (k, v) else p)
  else l ++ [(k, v)]

/-- Python `max` over a nonempty collection of numbers (the `[]` case is
arbitrary; Python would raise there and every use site guards it). -/
def pyMax : List ℚ → ℚ
  | [] => 0
  | x :: xs => xs.foldl max x

theorem le_foldl_max_init : ∀ (xs : List ℚ) (a : ℚ), a ≤ xs.foldl max a := by
  intro xs
  induction xs with
  | nil => intro a; simp
  | cons y ys ih =>
    intro a
    calc a ≤ max a y := le_max_left _ _
    _ ≤ ys.foldl max (max a y) := ih _

theorem foldl_max_cases : ∀ (xs : List ℚ) (a : ℚ),
    xs.foldl max a = a ∨ xs.foldl max a ∈ xs := by
  intro xs
  induction xs with
  | nil => intro a; left; rfl
  | cons y ys ih =>
    intro a
    rw [List.foldl]
    rcases ih (max a y) with h | h
    · rcases max_choice a y with hm | hm
      · left; rw [h, hm]
      · right; rw [h, hm]; exact List.mem_cons_self _ _
    · right; exact List.mem_cons.mpr (Or.inr h)

theorem mem_le_foldl_max : ∀ (xs : List ℚ) (a x : ℚ), x ∈ xs → x ≤ xs.foldl max a := by
  intro xs
  induction xs with
  | nil => intro a x hx; cases hx
  | cons y ys ih =>
    intro a x hx
    rw [List.foldl]
    rcases List.mem_cons.mp hx with h1 | h1
    · subst h1
      exact le_trans (le_max_right a x) (le_foldl_max_init _ _)
    · exact ih (max a y) x h1

theorem pyMax_mem (l : List ℚ) (hl : l ≠ []) : pyMax l ∈ l := by
  match l with
  | x :: xs =>
    show xs.foldl max x ∈ x :: xs
    rcases foldl_max_cases xs x with h | h
    · rw [h]; exact List.mem_cons_self _ _
    · exact List.mem_cons.mpr (Or.inr h)

theorem le_pyMax (l : List ℚ) (x : ℚ) (hx : x ∈ l) : x ≤ pyMax l := by
  match l with
  | a :: xs =>
    show x ≤ xs.foldl max a
    rcases List.mem_cons.mp hx with h1 | h1
    · subst h1; exact le_foldl_max_init _ _
    · exact mem_le_foldl_max xs a x h1

theorem pyMax_eq (l : List ℚ) (m : ℚ) (hmem : m ∈ l)
    (hub : ∀ x ∈ l, x ≤ m) : pyMax l = m := by
  have h1 : pyMax l ≤ m := hub _ (pyMax_mem l (by rintro rfl; cases hmem))
  have h2 : m ≤ pyMax l := le_pyMax l m hmem
  exact le_antisymm h1 h2

end PyDict

/-- Successive slices of a list cut at the given sizes: the Python idiom
repeated in `create_journey.main` and `common.divide_matches_into_quarters`,
`lst[start_idx : start_idx + size]` with `start_idx` accumulating. -/
def sliceBySizes {α : Type} : List ℕ → List α → List (List α)
  | [], _ => []
  | s :: rest, l => l.take s :: sliceBySizes rest (l.drop s)

theorem sliceBySizes_length {α : Type} :
    ∀ (sizes : List ℕ) (l : List α), (sliceBySizes sizes l).length = sizes.length := by
  intro sizes
  induction sizes with
  | nil => intro l; rfl
  | cons s rest ih => intro l; simp [sliceBySizes, ih]

theorem sliceBySizes_flatten {α : Type} :
    ∀ (sizes : List ℕ) (l : List α), l.length ≤ sizes.sum →
      (sliceBySizes sizes l).flatten = l := by
  intro sizes
  induction sizes with
  | nil =>
    intro l h
    simp at h
    simp [sliceBySizes, h]
  | cons s rest ih =>
    intro l h
    simp only [List.sum_cons] at h
    rw [sliceBySizes, List.flatten_cons, ih (l.drop s) (by simp; omega), List.take_append_drop]

theorem sliceBySizes_map_length {α : Type} :
    ∀ (sizes : List ℕ) (l : List α), sizes.sum ≤ l.length →
      (sliceBySizes sizes l).map List.length = sizes := by
  intro sizes
  induction sizes with
  | nil => intro l _; rfl
  | cons s rest ih =>
    intro l h
    simp only [List.sum_cons] at h
    rw [sliceBySizes, List.map_cons, ih (l.drop s) (by simp; omega),
      List.length_take, Nat.min_eq_left (by omega)]

/-- Python `round` to an integer: round-half-to-even (banker's rounding),
on exact rationals. -/
def pyRoundInt (q : ℚ) : ℤ :=
  let f := ⌊q⌋
  if q - f < 1 / 2 then f
  else if 1 / 2 < q - f then f + 1
  else if f % 2 = 0 then f else f + 1

/-- Python `round(x, ndigits)` on exact rationals. -/
def pyRound (q : ℚ) (ndigits : ℕ) : ℚ :=
  (pyRoundInt (q * 10 ^ ndigits) : ℚ) / 10 ^ ndigits

namespace StatsInference

/-- A feature bundle as produced by `bundles_from_participant` /
`extract_bundles_from_processed_match`: one flat numeric mapping per value
group.  Booleans are coerced to 0/1 by the extractor, so values are plain
rationals; `univ` holds the two universalism fields, with `championId`
already stringified as `universalism_bonus` does via `str(...)`. -/
structure Bundle where
  power : List (String × ℚ)
  achiev : List (String × ℚ)
  hed : List (String × ℚ)
  stim : List (String × ℚ)
  selfD : List (String × ℚ)
  bene : List (String × ℚ)
  trad : List (String × ℚ)
  conf : List (String × ℚ)
  secs : List (String × ℚ)
  univ : List (String × String)

/-- The weight tables of `stats_inference.WEIGHTS`.  Dotted feature paths
`"grp.key"` are stored as the pair `(grp, key)`. -/
def WEIGHTS : List (String × List ((String × String) × ℚ)) :=
  [("Power", [(("power", "goldEarnedperMin"), 1.0),
     (("power", "magicDamageDealtToChampions"), 0.5),
     (("power", "physicalDamageDealtToChampions"), 0.5),
     (("power", "damageSelfMitigated"), 0.2)]),
   ("Achievement", [(("achiev", "firstBloodKill"), 0.8),
     (("achiev", "killingSprees"), 0.6),
     (("achiev", "teamDamagePercentage"), 0.8),
     (("achiev", "highkda"), 0.6)]),
   ("Hedonism", [(("hed", "takedownsInEnemyFountain"), 1.0),
     (("hed", "twentyMinionsIn3SecondsCount"), 0.5),
     (("hed", "blastConeOppositeOpponentCount"), 0.3)]),
   ("Stimulation", [(("stim", "bountyGold"), 0.6),
     (("stim", "epicMonsterSteals"), 0.8),
     (("stim", "killsNearEnemyTurret"), 0.5),
     (("stim", "deaths"), 0.2)]),
   ("Self-Direction", [(("selfD", "soloKills"), 0.8),
     (("selfD", "knockEnemyIntoTeamAndKill"), 0.5),
     (("selfD", "goldSpentperMin"), 0.3)]),
   ("Benevolence", [(("bene", "killParticipation"), 1.0),
     (("secs", "visionScorePerMinute"), 0.8),
     (("secs", "wardTakedowns"), 0.5),
     (("bene", "controlWardsPlaced"), 0.5),
     (("bene", "immobilizeAndKillWithAlly"), 0.5)]),
   ("Tradition", [(("trad", "csPerMin"), 0.8),
     (("trad", "csPerMinPre10"), 0.8),
     (("secs", "longestTimeSpentLiving"), 0.2)]),
   ("Conformity", [(("bene", "stealthWardsPlaced"), 0.3),
     (("secs", "wardsGuarded"), 0.3),
     (("secs", "deaths"), -0.6)]),
   ("Security", [(("secs", "visionScorePerMinute"), 0.8),
     (("secs", "wardTakedowns"), 0.5),
     (("secs", "damageSelfMitigated"), 0.4),
     (("secs", "killsUnderOwnTurret"), 0.3)]),
   ("Universalism", [])]

/-- Selects the named group out of a bundle, `bundles.get(b, {})`. -/
def groupOf (b : Bundle) (g : String) : List (String × ℚ) :=
  if g == "power" then b.power else if g == "achiev" then b.achiev
  else if g == "hed" then b.hed else if g == "stim" then b.stim
  else if g == "selfD" then b.selfD else if g == "bene" then b.bene
  else if g == "trad" then b.trad else if g == "conf" then b.conf
  else if g == "secs" then b.secs else []

/-- `_path_get(bundles, "g.k")` = `bundles.get(g, {}).get(k, 0.0)`. -/
def path_get (b : Bundle) (g k : String) : ℚ := PyDict.dget (groupOf b g) k 0

/-- `_clip(x, lo, hi)`. -/
def clip (x lo hi : ℚ) : ℚ := if x < lo then lo else if hi < x then hi else x

/-- `score_values(bundles_list)`: one raw value vector per bundle, each
dimension the weighted sum of its features, clipped to plus or minus 1e9. -/
def score_values (bundles_list : List Bundle) : List (List (String × ℚ)) :=
  bundles_list.map (fun b =>
    WEIGHTS.map (fun w =>
      (w.1, clip ((w.2.map (fun pw => pw.2 * path_get b pw.1.1 pw.1.2)).sum)
        (-(10 ^ 9)) (10 ^ 9))))

/-- `sorted({k for r in rows for k in r})`: the sorted set of keys of a
list of dicts (`sorted` is modeled by the stable `insertionSort`; the set
dedup order is irrelevant after sorting). -/
def sortedKeys {β : Type} (rows : List (List (String × β))) : List String :=
  List.insertionSort (· ≤ ·) ((rows.flatMap (fun r => r.map Prod.fst)).dedup)

/-- `aggregate_mean(vecs)`: per-dimension arithmetic mean over the vectors,
empty input giving an empty mapping. -/
def aggregate_mean (vecs : List (List (String × ℚ))) : List (String × ℚ) :=
  if vecs.isEmpty then []
  else (sortedKeys vecs).map (fun k =>
    (k, (vecs.map (fun v => PyDict.dget v k 0)).sum / vecs.length))

/-- `universalism_bonus(participant_bundles)`:
`0.5 * len(set(champs))/max(1,n) + 0.5 * len(set(lanes))/max(1,n)`. -/
def universalism_bonus (participant_bundles : List Bundle) : ℚ :=
  let champs := participant_bundles.map (fun b => PyDict.dget b.univ "championId" "")
  let lanes := participant_bundles.map (fun b => PyDict.dget b.univ "lane" "")
  let cd := (champs.dedup.length : ℚ) / ((max 1 champs.length : ℕ) : ℚ)
  let ld := (lanes.dedup.length : ℚ) / ((max 1 lanes.length : ℕ) : ℚ)
  0.5 * cd + 0.5 * ld

/-- The column z-score `_z(xs)`: population mean and standard deviation,
with `sd = math.sqrt(var) or 1.0` (a zero standard deviation is replaced
by 1.0). -/
noncomputable def zscore_col (xs : List ℝ) : List ℝ :=
  let n := xs.length
  if n = 0 then []
  else
    let mu := xs.sum / (n : ℝ)
    let var := (xs.map (fun x => (x - mu) ^ 2)).sum / (n : ℝ)
    let sd := if Real.sqrt var = 0 then 1 else Real.sqrt var
    xs.map (fun x => (x - mu) / sd)

/-- `zscore_rows(rows)`: z-scores each dimension column independently over
the cohort, returning one normalized dict per input row, in order. -/
noncomputable def zscore_rows (rows : List (List (String × ℝ))) :
    List (List (String × ℝ)) :=
  if rows.isEmpty then []
  else
    let keys := sortedKeys rows
    let zs := fun k => zscore_col (rows.map (fun r => PyDict.dget r k 0))
    (List.range rows.length).map (fun i => keys.map (fun k => (k, (zs k).getD i 0)))

end StatsInference

namespace CreateJourney

/-- Quarter sizes from `create_journey.main`:
`quarter_size = total // 4`, `remainder = total % 4`,
`sizes = [quarter_size + (1 if i < remainder else 0) for i in range(4)]`. -/
def quarter_sizes (total : ℕ) : List ℕ :=
  let quarter_size := total / 4
  let remainder := total % 4
  (List.range 4).map (fun i => quarter_size + (if i < remainder then 1 else 0))

/-- The quarter partition from `create_journey.main`: the (already
chronologically sorted) match list is cut into four contiguous slices
`matches[start_idx : start_idx + size]` with the sizes above. -/
def quarters_matches {α : Type} (ms : List α) : List (List α) :=
  sliceBySizes (quarter_sizes ms.length) ms

theorem quarter_sizes_explicit (n : ℕ) :
    quarter_sizes n = [n / 4 + (if 0 < n % 4 then 1 else 0),
      n / 4 + (if 1 < n % 4 then 1 else 0),
      n / 4 + (if 2 < n % 4 then 1 else 0),
      n / 4 + (if 3 < n % 4 then 1 else 0)] := by
  simp [quarter_sizes, List.range_succ]

theorem quarter_sizes_sum (n : ℕ) : (quarter_sizes n).sum = n := by
  rw [quarter_sizes_explicit]
  have h4 : n % 4 < 4 := Nat.mod_lt _ (by norm_num)
  have hdm := Nat.div_add_mod n 4
  simp only [List.sum_cons, List.sum_nil]
  split_ifs <;> omega

/-- A pre-processed match file as consumed by `create_journey.py`: the named
value groups (`achiev`, `power`, `selfD`, `secs`, `trad`, `bene`, `hed`,
`stim`, `univ`), each a flat mapping. -/
structure Match where
  achiev : List (String × ℚ)
  power : List (String × ℚ)
  selfD : List (String × ℚ)
  secs : List (String × ℚ)
  trad : List (String × ℚ)
  bene : List (String × ℚ)
  hed : List (String × ℚ)
  stim : List (String × ℚ)
  univ : List (String × String)

/-- `extract_bundles_from_processed_match(match)`: reshapes the match groups
into a backend bundle, with `conf` fixed to the empty mapping. -/
def extract_bundles_from_processed_match (m : Match) : StatsInference.Bundle :=
  { achiev := m.achiev, power := m.power, selfD := m.selfD, secs := m.secs,
    trad := m.trad, bene := m.bene, hed := m.hed, stim := m.stim,
    conf := [], univ := m.univ }

/-- `calculate_stats_from_preprocessed(matches)`.  The result dict is kept as
an association list because the empty and non-empty branches of the source
use different key sets (`vision_per_min` vs `vision_score_per_min`). -/
def calculate_stats_from_preprocessed (ms : List Match) : List (String × ℚ) :=
  if ms.isEmpty then
    [("games", 0), ("kda_proxy", 0.0), ("cs_per_min", 0.0), ("gold_per_min", 0.0),
     ("vision_per_min", 0.0), ("avg_kill_participation", 0.0),
     ("ping_rate_per_min", 0.0)]
  else
    let total_deaths := (ms.map (fun m => PyDict.dget m.secs "deaths" 0)).sum
    let total_cs_pm := (ms.map (fun m => PyDict.dget m.trad "csPerMin" 0)).sum
    let total_gold_pm := (ms.map (fun m => PyDict.dget m.power "goldEarnedperMin" 0)).sum
    let total_vision_pm := (ms.map (fun m => PyDict.dget m.secs "visionScorePerMinute" 0)).sum
    let kill_participations := ms.map (fun m => PyDict.dget m.achiev "killParticipation" 0)
    let num_games := ms.length
    let avg_cs := total_cs_pm / (num_games : ℚ)
    let avg_gold := total_gold_pm / (num_games : ℚ)
    let avg_vision := total_vision_pm / (num_games : ℚ)
    let avg_kp := if kill_participations.isEmpty then 0
      else kill_participations.sum / (kill_participations.length : ℚ)
    let estimated_takedowns := avg_kp * 20 * (num_games : ℚ)
    let kda_proxy := estimated_takedowns / max 1 total_deaths
    [("games", (num_games : ℚ)), ("kda_proxy", pyRound kda_proxy 2),
     ("cs_per_min", pyRound avg_cs 2), ("gold_per_min", pyRound avg_gold 1),
     ("vision_score_per_min", pyRound avg_vision 2),
     ("avg_kill_participation", pyRound avg_kp 3), ("ping_rate_per_min", 0.0)]

/-- The `region_map` of `create_journey.choose_region_arc`. -/
def region_map : List (String × String) :=
  [("Security", "Demacia"), ("Conformity", "Demacia"), ("Tradition", "Ionia"),
   ("Benevolence", "Ionia"), ("Universalism", "Targon"),
   ("Self-Direction", "Piltover"), ("Stimulation", "Bilgewater"),
   ("Hedonism", "Zaun"), ("Achievement", "Noxus"), ("Power", "Noxus")]

/-- `create_journey.choose_region_arc(values, quarter_num)`: sorts the value
dict descending by value (Python `sorted` is stable, modeled by the stable
`insertionSort`), filters out Universalism for quarters 1, 2 and 4, and maps
the top dimension through `region_map`.  Note this function receives only
the current quarter's values: it does not look at the previous quarter. -/
def choose_region_arc (values : List (String × ℚ)) (quarter_num : ℕ) : String :=
  let sorted_values := List.insertionSort (fun a b : String × ℚ => b.2 ≤ a.2) values
  let sorted_values := if quarter_num ∈ ([1, 2, 4] : List ℕ) then
      sorted_values.filter (fun p => p.1 != "Universalism")
    else sorted_values
  match sorted_values with
  | [] => "Runeterra"
  | top :: _ => PyDict.dget region_map top.1 "Runeterra"

/-- The value computation of `process_quarter_matches` before rescaling:
raw scores, per-dimension mean, then the universalism bonus added onto the
Universalism entry. -/
def stageValues (ms : List Match) : List (String × ℚ) :=
  let bundles := ms.map extract_bundles_from_processed_match
  let raw := StatsInference.score_values bundles
  let values := StatsInference.aggregate_mean raw
  PyDict.dset values "Universalism"
    (PyDict.dget values "Universalism" 0 + StatsInference.universalism_bonus bundles)

/-- The published values of `process_quarter_matches`:
`max_val = max(values.values()) if values else 1` followed by
`values = {k: round((v / max_val) * 100, 1) ...}`.  Python raises
`ZeroDivisionError` when `max_val` is 0 (the `if values else 1` guard only
covers an empty dict, not an all-zero one), modeled as `none`. -/
def quarterValues (ms : List Match) : Option (List (String × ℚ)) :=
  let values := stageValues ms
  let max_val := match values with
    | [] => (1 : ℚ)
    | _ => PyDict.pyMax (values.map Prod.snd)
  if max_val = 0 then none
  else some (values.map (fun p => (p.1, pyRound (p.2 / max_val * 100) 1)))

end CreateJourney

namespace AdvancedAnalytics

/-- A quarter story dict as fed to `calculate_trends`: the `"quarter"` label
and its `"stats"` sub-dict. -/
structure Quarter where
  quarter : String
  stats : List (String × ℚ)

/-- `_safe_get(q, "stats", key)`: nested lookup defaulting to 0. -/
def safe_get (q : Quarter) (k : String) : ℚ := PyDict.dget q.stats k 0

/-- `trend_direction(values)` (advanced_analytics.py lines 61-91):
ordinary-least-squares slope sign over index-vs-value, with a 5 percent
stability band on `pct_change = (last - first)/abs(first)*100` (0 when the
first value is 0). -/
def trend_direction (values : List ℚ) : String :=
  if values.length < 2 then "stable"
  else
    let n := values.length
    let x_mean := ((List.range n).map (fun i => (i : ℚ))).sum / (n : ℚ)
    let y_mean := values.sum / (n : ℚ)
    let numerator :=
      ((List.range n).map (fun (i : ℕ) => ((i : ℚ) - x_mean) * (values.getD i 0 - y_mean))).sum
    let denominator := ((List.range n).map (fun i => ((i : ℚ) - x_mean) ^ 2)).sum
    if denominator = 0 then "stable"
    else
      let slope := numerator / denominator
      let pct_change := if values.getD 0 0 ≠ 0 then
          (values.getLastD 0 - values.getD 0 0) / |values.getD 0 0| * 100
        else 0
      if |pct_change| < 5 then "stable"
      else if 0 < slope then "improving"
      else "declining"

/-- One reported metric entry of `calculate_trends`. -/
structure TrendEntry where
  values : List ℚ
  direction : String
  change_pct : ℚ
  best_quarter : String

/-- The per-metric entry construction repeated for each tracked metric in
`calculate_trends` (advanced_analytics.py lines 93-126):
`change_pct = ((xs[-1] - xs[0]) / max(0.01, xs[0])) * 100 if xs[0] != 0 else 0`
and `best_quarter = quarters_data[xs.index(max(xs))]["quarter"] if xs else "Q1"`. -/
def metricEntry (quarters_data : List Quarter) (xs : List ℚ) : TrendEntry :=
  { values := xs
    direction := trend_direction xs
    change_pct := if xs.getD 0 0 ≠ 0 then
        (xs.getLastD 0 - xs.getD 0 0) / max (1 / 100) (xs.getD 0 0) * 100
      else 0
    best_quarter := if xs.isEmpty then "Q1"
      else (quarters_data.getD (xs.indexOf (PyDict.pyMax xs)) ⟨"Q1", []⟩).quarter }

/-- The result of `calculate_trends`: the five tracked metric entries plus
the overall progression summary. -/
structure Trends where
  kda : TrendEntry
  cs_per_min : TrendEntry
  gold_per_min : TrendEntry
  vision_score : TrendEntry
  kill_participation : TrendEntry
  improving_metrics : ℕ
  declining_metrics : ℕ
  summary : String

/-- `calculate_trends(quarters_data)`; fewer than 2 quarters returns
`{"available": False}`, modeled as `none`. -/
def calculate_trends (quarters_data : List Quarter) : Option Trends :=
  if quarters_data.length < 2 then none
  else
    let kdas := quarters_data.map (fun q => safe_get q "kda_proxy")
    let cs := quarters_data.map (fun q => safe_get q "cs_per_min")
    let gold := quarters_data.map (fun q => safe_get q "gold_per_min")
    let vision := quarters_data.map (fun q => safe_get q "vision_score_per_min")
    let kp := quarters_data.map (fun q => safe_get q "kill_participation")
    let entries := [metricEntry quarters_data kdas, metricEntry quarters_data cs,
      metricEntry quarters_data gold, metricEntry quarters_data vision,
      metricEntry quarters_data kp]
    let improving := (entries.filter (fun t => t.direction == "improving")).length
    let declining := (entries.filter (fun t => t.direction == "declining")).length
    some { kda := metricEntry quarters_data kdas
           cs_per_min := metricEntry quarters_data cs
           gold_per_min := metricEntry quarters_data gold
           vision_score := metricEntry quarters_data vision
           kill_participation := metricEntry quarters_data kp
           improving_metrics := improving
           declining_metrics := declining
           summary := if declining < improving then "improving"
             else if improving < declining then "declining" else "stable" }

end AdvancedAnalytics

namespace Common

/-- The labels of the four quarters, in order. -/
def quarterLabels : List String := ["Q1", "Q2", "Q3", "Q4"]

/-- The loop body of `common.divide_matches_into_quarters`: for each
quarter index `i`, `size = min(chunk_size + (1 if i < remainder else 0),
max_per_quarter)`, `end_idx = min(start_idx + size, total)`, the quarter
gets `all_match_ids[start_idx:end_idx]`, and if `start_idx >= total`
afterwards the remaining quarters are filled with empty lists (the
`break`). -/
def divideGo {α : Type} (ids : List α) (total maxPer chunk rem : ℕ) :
    List ℕ → ℕ → List (List α)
  | [], _ => []
  | i :: restIdx, start =>
    let size := min (chunk + (if i < rem then 1 else 0)) maxPer
    let endIdx := min (start + size) total
    let slice := (ids.drop start).take (endIdx - start)
    if total ≤ endIdx then slice :: List.replicate restIdx.length []
    else slice :: divideGo ids total maxPer chunk rem restIdx endIdx

/-- `common.divide_matches_into_quarters(all_match_ids, max_per_quarter)`:
divides the ids into 4 positional quarters, chunk size capped at
`max_per_quarter`, remainder spread over the first quarters. -/
def divide_matches_into_quarters {α : Type} (ids : List α) (maxPer : ℕ) :
    List (String × List α) :=
  let total := ids.length
  if total = 0 then [("Q1", []), ("Q2", []), ("Q3", []), ("Q4", [])]
  else
    let chunk_size := min (total / 4) maxPer
    let remainder := if total < maxPer * 4 then min (total % 4) (maxPer * 4 - total) else 0
    quarterLabels.zip (divideGo ids total maxPer chunk_size remainder [0, 1, 2, 3] 0)

end Common

namespace FetchQuarter

/-- The durable job record of `fetch_quarter.py` as stored in DynamoDB.
`quarters` is `none` when the item has no `quarters` attribute (the source
defaults it differently at its two read sites). -/
structure Job where
  platform : String
  riotId : String
  s3Base : String
  status : String
  quarters : Option (List (String × String))
  quarterMatches : List (String × List String)

/-- A quarter-fetch work item (the claims concern well-formed quarter
messages; `discover_and_divide` tasks are handled by `process_fetch_all`
below). -/
structure Msg where
  jobId : String
  quarter : String
  force : Bool

/-- The default quarter map used by `process_fetch`:
`item.get("quarters", {"Q1":"pending",...})`. -/
def defaultQuarters : List (String × String) :=
  [("Q1", "pending"), ("Q2", "pending"), ("Q3", "pending"), ("Q4", "pending")]

def quarter_order : List String := ["Q1", "Q2", "Q3", "Q4"]

/-- The gate of `handler` (fetch_quarter.py lines 119-143): a quarter may
be processed only when every quarter before it in `quarter_order` has
status `fetched` or `ready` (missing statuses default to `pending`). -/
def can_process (qmap : List (String × String)) (label : String) : Bool :=
  (quarter_order.take (quarter_order.indexOf label)).all (fun prev =>
    let prev_status := PyDict.dget qmap prev "pending"
    prev_status == "fetched" || prev_status == "ready")

/-- `process_fetch(msg)` for a normal quarter message, as the list of job
records successively persisted by its `update_job` calls.  The Riot lookup
is abstracted into the `puuid` parameter.  An absent job record yields no
writes.  After the `fetching` write, the outcome is `error` when the puuid
lookup fails or the quarter has no assigned match ids, and `fetched`
otherwise (on the cache-hit path and on the fetch path alike); the job
`status` field is only ever written by the first update (`running`). -/
def process_fetch (puuid : Option String) (store : Option Job) (msg : Msg) :
    List Job :=
  match store with
  | none => []
  | some item =>
    let qmap := item.quarters.getD defaultQuarters
    let qmap1 := PyDict.dset qmap msg.quarter "fetching"
    let j1 : Job := { item with quarters := some qmap1, status := "running" }
    match puuid with
    | none => [j1, { j1 with quarters := some (PyDict.dset qmap1 msg.quarter "error") }]
    | some _ =>
      let match_ids := PyDict.dget item.quarterMatches msg.quarter []
      if match_ids.isEmpty then
        [j1, { j1 with quarters := some (PyDict.dset qmap1 msg.quarter "error") }]
      else
        [j1, { j1 with quarters := some (PyDict.dset qmap1 msg.quarter "fetched") }]

/-- One record of `handler(event)`: gate the message on the stored quarter
statuses (`item.get("quarters", {})`, missing statuses defaulting to
`pending`), deferring it (no writes, message left for redelivery) when an
earlier quarter is not yet `fetched`/`ready`. -/
def handler1 (puuid : Option String) (store : Option Job) (msg : Msg) :
    List Job :=
  if msg.jobId ≠ "" ∧ msg.quarter ≠ "" then
    match store with
    | some item =>
      if msg.quarter ∈ quarter_order then
        if can_process (item.quarters.getD []) msg.quarter then
          process_fetch puuid store msg
        else []
      else process_fetch puuid store msg
    | none => process_fetch puuid store msg
  else process_fetch puuid store msg

/-- The stored job record after a handler run: the last persisted update,
or the original record when nothing was written. -/
def runStore (store : Option Job) (updates : List Job) : Option Job :=
  (updates.getLast?).elim store some

/-- `process_fetch_all(job_id, platform, riot_id, s3_base, force)` as the
final job record: a failed puuid lookup sets only `status = "error"`; an
empty 2025 match list sets `status` and all four quarters to `error`;
otherwise the match ids are divided into quarters and stored in
`quarterMatches` (Q1 is then enqueued). -/
def process_fetch_all (puuid : Option String) (all_match_ids : List String)
    (item : Job) : Job :=
  match puuid with
  | none => { item with status := "error" }
  | some _ =>
    if all_match_ids.isEmpty then
      { item with
          status := "error"
          quarters := some [("Q1", "error"), ("Q2", "error"), ("Q3", "error"),
            ("Q4", "error")] }
    else
      { item with quarterMatches :=
          Common.divide_matches_into_quarters all_match_ids 50 }

end FetchQuarter

/-! Theorems.  One main theorem per claim, with shared helper lemmas. -/

theorem sliceBySizes_nil {α : Type} :
    ∀ (sizes : List ℕ), sliceBySizes sizes ([] : List α) =
      List.replicate sizes.length [] := by
  intro sizes
  induction sizes with
  | nil => rfl
  | cons s rest ih => simp [sliceBySizes, ih, List.replicate_succ]

theorem quarter_sizes_diff (n : ℕ) :
    ∀ a ∈ CreateJourney.quarter_sizes n, ∀ b ∈ CreateJourney.quarter_sizes n,
      a ≤ b + 1 := by
  intro a ha b hb
  rw [CreateJourney.quarter_sizes_explicit] at ha hb
  simp only [List.mem_cons, List.not_mem_nil, or_false] at ha hb
  rcases ha with h | h | h | h <;> rcases hb with h2 | h2 | h2 | h2 <;>
    subst h <;> subst h2 <;> split_ifs <;> omega

theorem find?_map_set {β : Type} (k : String) (v : β) :
    ∀ (m : List (String × β)),
      (m.map (fun p => if p.1 == k then (k, v) else p)).find? (fun p => p.1 == k)
      = (m.find? (fun p => p.1 == k)).map (fun _ => (k, v)) := by
  intro m
  have hpred : ((fun p : String × β => p.1 == k) ∘ fun p => if p.1 == k then (k, v) else p)
      = fun p : String × β => p.1 == k := by
    funext p
    by_cases hp : p.1 = k <;> simp [hp]
  rw [List.find?_map, hpred]
  cases h : m.find? (fun p => p.1 == k) with
  | none => rfl
  | some q =>
    have hq := List.find?_some h
    have hq2 : q.1 = k := by simpa using hq
    simp [hq2]

theorem find?_map_set_other {β : Type} (k k2 : String) (v : β) (hk : k2 ≠ k) :
    ∀ (m : List (String × β)),
      (m.map (fun p => if p.1 == k then (k, v) else p)).find? (fun p => p.1 == k2)
      = m.find? (fun p => p.1 == k2) := by
  intro m
  have hpred : ((fun p : String × β => p.1 == k2) ∘ fun p => if p.1 == k then (k, v) else p)
      = fun p : String × β => p.1 == k2 := by
    funext p
    by_cases hp : p.1 = k <;> simp [hp, Ne.symm hk]
  rw [List.find?_map, hpred]
  cases h : m.find? (fun p => p.1 == k2) with
  | none => rfl
  | some q =>
    have hq := List.find?_some h
    have hq2 : q.1 = k2 := by simpa using hq
    have hq3 : ¬(q.1 = k) := by rw [hq2]; exact hk
    simp [hq3]

theorem dget_dset_same {β : Type} (m : List (String × β)) (k : String) (v d : β) :
    PyDict.dget (PyDict.dset m k v) k d = v := by
  rw [PyDict.dset]
  split_ifs with h
  · rw [PyDict.dget, find?_map_set]
    obtain ⟨q, hq⟩ := Option.isSome_iff_exists.mp h
    rw [hq]
    rfl
  · rw [PyDict.dget, List.find?_append]
    have hnone : m.find? (fun p => p.1 == k) = none :=
      Option.not_isSome_iff_eq_none.mp h
    rw [hnone]
    simp [List.find?]

theorem dget_dset_other {β : Type} (m : List (String × β)) (k k2 : String)
    (v d : β) (hk : k2 ≠ k) :
    PyDict.dget (PyDict.dset m k v) k2 d = PyDict.dget m k2 d := by
  rw [PyDict.dset]
  split_ifs with h
  · rw [PyDict.dget, find?_map_set_other k k2 v hk, PyDict.dget]
  · rw [PyDict.dget, List.find?_append, PyDict.dget]
    cases hm : m.find? (fun p => p.1 == k2) with
    | none =>
      have hb : (k == k2) = false := by simp [Ne.symm hk]
      simp [hb]
    | some q => rfl

theorem zip_labels_snd {β : Type} (l : List β) (h : l.length = 4) :
    (Common.quarterLabels.zip l).map Prod.snd = l := by
  rcases l with _ | ⟨a, l⟩
  · simp at h
  rcases l with _ | ⟨b, l⟩
  · simp at h
  rcases l with _ | ⟨c, l⟩
  · simp at h
  rcases l with _ | ⟨d, l⟩
  · simp at h
  have hl : l = [] := by simpa using h
  subst hl
  rfl

theorem divideGo_eq_slices {α : Type} :
    ∀ (idxs : List ℕ) (ids : List α) (maxPer chunk rem start : ℕ),
      (∀ i ∈ idxs, chunk + (if i < rem then 1 else 0) ≤ maxPer) →
      start + (idxs.map (fun i => chunk + (if i < rem then 1 else 0))).sum ≤
        ids.length →
      Common.divideGo ids ids.length maxPer chunk rem idxs start =
        sliceBySizes (idxs.map (fun i => chunk + (if i < rem then 1 else 0)))
          (ids.drop start) := by
  intro idxs
  induction idxs with
  | nil => intro ids maxPer chunk rem start hcap hsum; rfl
  | cons i rest ih =>
    intro ids maxPer chunk rem start hcap hsum
    simp only [List.map_cons, List.sum_cons] at hsum
    have hsize : min (chunk + (if i < rem then 1 else 0)) maxPer
        = chunk + (if i < rem then 1 else 0) :=
      Nat.min_eq_left (hcap i (List.mem_cons_self _ _))
    have hend : min (start + (chunk + (if i < rem then 1 else 0))) ids.length
        = start + (chunk + (if i < rem then 1 else 0)) :=
      Nat.min_eq_left (by omega)
    simp only [Common.divideGo, sliceBySizes, List.map_cons]
    simp only [hsize, hend]
    have hslice : (ids.drop start).take
          (start + (chunk + (if i < rem then 1 else 0)) - start)
        = (ids.drop start).take (chunk + (if i < rem then 1 else 0)) := by
      rw [Nat.add_sub_cancel_left]
    have hdd : (ids.drop start).drop (chunk + (if i < rem then 1 else 0))
        = ids.drop (start + (chunk + (if i < rem then 1 else 0))) := by
      rw [List.drop_drop]
    by_cases hbr : ids.length ≤ start + (chunk + (if i < rem then 1 else 0))
    · rw [if_pos hbr]
      have hdrop : ids.drop (start + (chunk + (if i < rem then 1 else 0))) = [] :=
        List.drop_eq_nil_of_le (by omega)
      rw [hslice]
      congr 1
      rw [hdd, hdrop, sliceBySizes_nil, List.length_map]
    · rw [if_neg hbr]
      rw [hslice, ih ids maxPer chunk rem
        (start + (chunk + (if i < rem then 1 else 0)))
        (fun j hj => hcap j (List.mem_cons.mpr (Or.inr hj))) (by omega), ← hdd]

theorem divide_eq_slices {α : Type} (ids : List α) (h : ids.length ≤ 196) :
    (Common.divide_matches_into_quarters ids 50).map Prod.snd =
      sliceBySizes (CreateJourney.quarter_sizes ids.length) ids := by
  by_cases h0 : ids.length = 0
  · have hnil : ids = [] := List.length_eq_zero.mp h0
    subst hnil
    simp [Common.divide_matches_into_quarters, CreateJourney.quarter_sizes_explicit,
      sliceBySizes]
  · have h4 : ids.length % 4 < 4 := Nat.mod_lt _ (by norm_num)
    have hchunk : min (ids.length / 4) 50 = ids.length / 4 :=
      Nat.min_eq_left (by omega)
    have hrem : (if ids.length < 50 * 4 then
          min (ids.length % 4) (50 * 4 - ids.length) else 0) = ids.length % 4 := by
      rw [if_pos (by omega)]
      exact Nat.min_eq_left (by omega)
    have hmapsizes : ([0, 1, 2, 3] : List ℕ).map
          (fun i => ids.length / 4 + (if i < ids.length % 4 then 1 else 0))
        = CreateJourney.quarter_sizes ids.length := by
      rw [CreateJourney.quarter_sizes_explicit]
      rfl
    have hsum : ((([0, 1, 2, 3] : List ℕ)).map
          (fun i => ids.length / 4 + (if i < ids.length % 4 then 1 else 0))).sum
        = ids.length := by
      rw [hmapsizes]
      exact CreateJourney.quarter_sizes_sum _
    rw [Common.divide_matches_into_quarters]
    rw [if_neg h0]
    simp only [hchunk, hrem]
    rw [divideGo_eq_slices [0, 1, 2, 3] ids 50 (ids.length / 4) (ids.length % 4) 0
      (by intro i hi; have := Nat.div_add_mod ids.length 4; fin_cases hi <;> split_ifs <;> omega)
      (by omega)]
    rw [List.drop_zero, hmapsizes]
    apply zip_labels_snd
    rw [sliceBySizes_length, CreateJourney.quarter_sizes_explicit]
    rfl

theorem dedup_of_all_eq {α : Type} [DecidableEq α] :
    ∀ (l : List α) (c : α), l ≠ [] → (∀ x ∈ l, x = c) → l.dedup = [c] := by
  intro l
  induction l with
  | nil => intro c h _; cases h rfl
  | cons a rest ih =>
    intro c _ hall
    have ha : a = c := hall a (List.mem_cons_self _ _)
    subst ha
    cases rest with
    | nil => rfl
    | cons b rest2 =>
      have hb : b = a := (hall b (List.mem_cons.mpr (Or.inr (List.mem_cons_self _ _)))).trans
        (hall a (List.mem_cons_self _ _)).symm
      have hmem : a ∈ b :: rest2 := by
        rw [hb]
        exact List.mem_cons_self _ _
      rw [List.dedup_cons_of_mem hmem]
      exact ih a (by simp) (fun x hx => hall x (List.mem_cons.mpr (Or.inr hx)))

/-- A sample bundle whose games all share champion 157 in lane MIDDLE. -/
def sampleBundle : StatsInference.Bundle :=
  { power := [], achiev := [], hed := [], stim := [], selfD := [], bene := [],
    trad := [], conf := [], secs := [],
    univ := [("championId", "157"), ("lane", "MIDDLE")] }

/-- A second sample bundle with a different champion and lane. -/
def sampleBundle2 : StatsInference.Bundle :=
  { power := [], achiev := [], hed := [], stim := [], selfD := [], bene := [],
    trad := [], conf := [], secs := [],
    univ := [("championId", "103"), ("lane", "TOP")] }

/-- C5 counterexample: on a cohort of two games with the same champion and
the same lane, `universalism_bonus` returns 1/2, not the claimed 0.0. -/
theorem universalism_bonus_all_same_not_zero :
    StatsInference.universalism_bonus [sampleBundle, sampleBundle] = 1 / 2
    ∧ (1 / 2 : ℚ) ≠ 0 := by
  constructor
  · have hch : ([sampleBundle, sampleBundle].map
        (fun b => PyDict.dget b.univ "championId" "")) = ["157", "157"] := by
      decide
    have hln : ([sampleBundle, sampleBundle].map
        (fun b => PyDict.dget b.univ "lane" "")) = ["MIDDLE", "MIDDLE"] := by
      decide
    have hded : (["157", "157"] : List String).dedup = ["157"] := by decide
    have hded2 : (["MIDDLE", "MIDDLE"] : List String).dedup = ["MIDDLE"] := by
      decide
    simp only [StatsInference.universalism_bonus, hch, hln, hded, hded2]
    norm_num
  · norm_num

/-- C5 amended: the cohort diversity bonus is
0.5 * (distinct champions / games) + 0.5 * (distinct lanes / games); it is
0.0 on an empty cohort (never a division error); on a non-empty cohort in
which all games share one champion and one lane it returns 1/n (not 0.0);
and on a non-empty cohort with pairwise distinct champions and pairwise
distinct lanes it returns 1.0. -/
theorem universalism_bonus_spec :
    StatsInference.universalism_bonus [] = 0
    ∧ (∀ (bs : List StatsInference.Bundle) (c l : String), bs ≠ [] →
        (∀ b ∈ bs, PyDict.dget b.univ "championId" "" = c) →
        (∀ b ∈ bs, PyDict.dget b.univ "lane" "" = l) →
        StatsInference.universalism_bonus bs = 1 / bs.length)
    ∧ (∀ (bs : List StatsInference.Bundle), bs ≠ [] →
        (bs.map (fun b => PyDict.dget b.univ "championId" "")).Nodup →
        (bs.map (fun b => PyDict.dget b.univ "lane" "")).Nodup →
        StatsInference.universalism_bonus bs = 1) := by
  refine ⟨by norm_num [StatsInference.universalism_bonus], ?_, ?_⟩
  · intro bs c l hne hc hl
    have hlen : 0 < bs.length := List.length_pos.mpr hne
    have hch : (bs.map (fun b => PyDict.dget b.univ "championId" "")).dedup = [c] :=
      dedup_of_all_eq _ c (by simpa using hne)
        (fun x hx => by
          obtain ⟨b, hb, rfl⟩ := List.mem_map.mp hx
          exact hc b hb)
    have hln : (bs.map (fun b => PyDict.dget b.univ "lane" "")).dedup = [l] :=
      dedup_of_all_eq _ l (by simpa using hne)
        (fun x hx => by
          obtain ⟨b, hb, rfl⟩ := List.mem_map.mp hx
          exact hl b hb)
    have hmax : max 1 bs.length = bs.length := Nat.max_eq_right hlen
    have hq : (bs.length : ℚ) ≠ 0 := Nat.cast_ne_zero.mpr (Nat.pos_iff_ne_zero.mp hlen)
    simp only [StatsInference.universalism_bonus, hch, hln, List.length_map, hmax,
      List.length_cons, List.length_nil]
    push_cast
    field_simp
    norm_num
  · intro bs hne hnc hnl
    have hlen : 0 < bs.length := List.length_pos.mpr hne
    have hmax : max 1 bs.length = bs.length := Nat.max_eq_right hlen
    have hq : (bs.length : ℚ) ≠ 0 := Nat.cast_ne_zero.mpr (Nat.pos_iff_ne_zero.mp hlen)
    simp only [StatsInference.universalism_bonus, hnc.dedup, hnl.dedup,
      List.length_map, hmax]
    rw [div_self hq]
    norm_num

/-- Witness for C5's amended claim: the all-same cohort of two games gets
bonus 1/2, and a two-game cohort with distinct champions and lanes gets
bonus 1. -/
theorem universalism_bonus_spec_witness :
    StatsInference.universalism_bonus [sampleBundle, sampleBundle]
      = 1 / ([sampleBundle, sampleBundle] : List StatsInference.Bundle).length
    ∧ StatsInference.universalism_bonus [sampleBundle, sampleBundle2] = 1 :=
  ⟨universalism_bonus_spec.2.1 [sampleBundle, sampleBundle] "157" "MIDDLE"
      (by simp) (by decide) (by decide),
   universalism_bonus_spec.2.2 [sampleBundle, sampleBundle2]
      (by simp) (by decide) (by decide)⟩

/-- Head of the descending stable sort of a value dict, filtered by `pred`:
it carries the key of a strict maximum among the entries passing `pred`. -/
theorem head_of_sorted_filter (values : List (String × ℚ))
    (pred : String × ℚ → Bool) (key : String) (v : ℚ)
    (hmem : (key, v) ∈ values) (hpred : pred (key, v) = true)
    (hmax : ∀ p ∈ values, p.1 ≠ key → pred p = true → p.2 < v) :
    ∃ top rest,
      (List.insertionSort (fun a b : String × ℚ => b.2 ≤ a.2) values).filter pred
        = top :: rest ∧ top.1 = key := by
  haveI ht : IsTotal (String × ℚ) (fun a b : String × ℚ => b.2 ≤ a.2) :=
    ⟨fun a b => le_total b.2 a.2⟩
  haveI htr : IsTrans (String × ℚ) (fun a b : String × ℚ => b.2 ≤ a.2) :=
    ⟨fun _ _ _ hab hbc => le_trans hbc hab⟩
  have hperm := List.perm_insertionSort
    (fun a b : String × ℚ => b.2 ≤ a.2) values
  have hsor := List.sorted_insertionSort
    (fun a b : String × ℚ => b.2 ≤ a.2) values
  have hmemS : (key, v) ∈ List.insertionSort
      (fun a b : String × ℚ => b.2 ≤ a.2) values := hperm.mem_iff.mpr hmem
  have hmemF : (key, v) ∈ (List.insertionSort
      (fun a b : String × ℚ => b.2 ≤ a.2) values).filter pred :=
    List.mem_filter.mpr ⟨hmemS, hpred⟩
  obtain ⟨top, rest, hf⟩ : ∃ top rest,
      (List.insertionSort (fun a b : String × ℚ => b.2 ≤ a.2) values).filter pred
        = top :: rest := by
    cases hfc : (List.insertionSort
        (fun a b : String × ℚ => b.2 ≤ a.2) values).filter pred with
    | nil => rw [hfc] at hmemF; cases hmemF
    | cons t r2 => exact ⟨t, r2, rfl⟩
  refine ⟨top, rest, hf, ?_⟩
  have htopF : top ∈ (List.insertionSort
      (fun a b : String × ℚ => b.2 ≤ a.2) values).filter pred := by
    rw [hf]
    exact List.mem_cons_self _ _
  have htopmem : top ∈ values := hperm.mem_iff.mp (List.mem_filter.mp htopF).1
  have htoppred : pred top = true := (List.mem_filter.mp htopF).2
  by_cases hk : top.1 = key
  · exact hk
  · exfalso
    have hsF : List.Pairwise (fun a b : String × ℚ => b.2 ≤ a.2)
        ((List.insertionSort (fun a b : String × ℚ => b.2 ≤ a.2) values).filter
          pred) := List.Pairwise.filter pred hsor
    rw [hf] at hsF hmemF
    have hvle : v ≤ top.2 := by
      rcases List.mem_cons.mp hmemF with he | hr2
      · exact absurd (congrArg Prod.fst he.symm) hk
      · exact (List.pairwise_cons.mp hsF).1 (key, v) hr2
    exact absurd (hmax top htopmem hk htoppred) (not_lt.mpr hvle)

/-- C3 counterexample: with previous values Power 9, Tradition 0 and
current values Power 8, Tradition 5, the maximum-absolute-delta dimension
at chapter 2 is Tradition (delta +5, vs Power's delta -1), whose region is
Ionia; but `create_journey.choose_region_arc` selects by maximum current
value, ignoring the previous vector, and returns Noxus (Power). -/
theorem choose_region_arc_ignores_delta :
    CreateJourney.choose_region_arc [("Power", 8), ("Tradition", 5)] 2 = "Noxus"
    ∧ PyDict.dget CreateJourney.region_map "Power" "Runeterra" = "Noxus"
    ∧ PyDict.dget CreateJourney.region_map "Tradition" "Runeterra" = "Ionia"
    ∧ |(8 : ℚ) - 9| < |(5 : ℚ) - 0|
    ∧ ("Noxus" : String) ≠ "Ionia" := by
  refine ⟨?_, rfl, rfl, by norm_num, by decide⟩
  norm_num [CreateJourney.choose_region_arc, List.insertionSort,
    List.orderedInsert, List.filter, PyDict.dget, List.find?]
  decide

/-- C3 amended: `create_journey.choose_region_arc` does not look at the
previous chapter's vector at any chapter index.  At every chapter it
selects the dimension with the maximum current value — excluding
Universalism at chapters 1, 2 and 4 — and maps it through `region_map`.
The claim's chapter-2 delta rule and chapter-3 most-negative-delta rule do
not hold of this function. -/
theorem choose_region_arc_max_current (values : List (String × ℚ))
    (key : String) (v : ℚ) (hmem : (key, v) ∈ values) :
    (∀ q ∈ ([1, 2, 4] : List ℕ), key ≠ "Universalism" →
      (∀ p ∈ values, p.1 ≠ key → p.1 ≠ "Universalism" → p.2 < v) →
      CreateJourney.choose_region_arc values q
        = PyDict.dget CreateJourney.region_map key "Runeterra")
    ∧ (∀ q, q ∉ ([1, 2, 4] : List ℕ) →
      (∀ p ∈ values, p.1 ≠ key → p.2 < v) →
      CreateJourney.choose_region_arc values q
        = PyDict.dget CreateJourney.region_map key "Runeterra") := by
  constructor
  · intro q hq hkey hmax
    obtain ⟨top, rest, hf, htop⟩ := head_of_sorted_filter values
      (fun p => p.1 != "Universalism") key v hmem (by simp [hkey])
      (fun p hp h1 h2 => hmax p hp h1 (by simpa using h2))
    simp only [CreateJourney.choose_region_arc]
    rw [if_pos hq, hf]
    exact congrArg (fun s => PyDict.dget CreateJourney.region_map s "Runeterra") htop
  · intro q hq hmax
    obtain ⟨top, rest, hf, htop⟩ := head_of_sorted_filter values
      (fun _ => true) key v hmem rfl
      (fun p hp h1 _ => hmax p hp h1)
    rw [List.filter_true] at hf
    simp only [CreateJourney.choose_region_arc]
    rw [if_neg hq, hf]
    exact congrArg (fun s => PyDict.dget CreateJourney.region_map s "Runeterra") htop

/-- Witness for C3's amended claim: at chapter 2 with current values
Power 8 and Tradition 5, the selector returns the region of the
maximum-current-value dimension Power. -/
theorem choose_region_arc_max_current_witness :
    CreateJourney.choose_region_arc [("Power", 8), ("Tradition", 5)] 2
      = PyDict.dget CreateJourney.region_map "Power" "Runeterra" :=
  (choose_region_arc_max_current [("Power", 8), ("Tradition", 5)] "Power" 8
    (by simp)).1 2 (by decide) (by decide)
    (by
      intro p hp h1 h2
      simp only [List.mem_cons, List.not_mem_nil, or_false] at hp
      rcases hp with rfl | rfl
      · exact absurd rfl h1
      · norm_num)

theorem map_getD_zero {α β : Type} (f : α → β) (l : List α) (a : α) (d : β)
    (h : l.head? = some a) : (l.map f).getD 0 d = f a := by
  cases l with
  | nil => cases h
  | cons x xs =>
    obtain rfl := Option.some.inj h
    rfl

theorem map_getLastD {α β : Type} (f : α → β) :
    ∀ (l : List α) (a : α) (d : β), l.getLast? = some a →
      (l.map f).getLastD d = f a := by
  intro l
  induction l with
  | nil => intro a d h; cases h
  | cons x xs ih =>
    intro a d h
    cases xs with
    | nil =>
      obtain rfl := Option.some.inj h
      rfl
    | cons y ys =>
      rw [List.getLast?_cons_cons] at h
      exact ih a (f x) h

/-- The reported change for one tracked metric of `calculate_trends`:
`((xs[-1] - xs[0]) / max(0.01, xs[0])) * 100 if xs[0] != 0 else 0`,
expressed through the first and last quarter of the series. -/
theorem metricEntry_change_pct (qd : List AdvancedAnalytics.Quarter)
    (q0 qn : AdvancedAnalytics.Quarter) (key : String)
    (h0 : qd.head? = some q0) (hn : qd.getLast? = some qn) :
    (AdvancedAnalytics.metricEntry qd
        (qd.map (fun q => AdvancedAnalytics.safe_get q key))).change_pct
      = if AdvancedAnalytics.safe_get q0 key ≠ 0 then
          (AdvancedAnalytics.safe_get qn key - AdvancedAnalytics.safe_get q0 key)
            / max (1 / 100) (AdvancedAnalytics.safe_get q0 key) * 100
        else 0 := by
  simp only [AdvancedAnalytics.metricEntry]
  rw [map_getD_zero _ _ _ _ h0, map_getLastD _ _ _ _ hn]

/-- A sample quarter story whose kda_proxy is 0. -/
def sampleQuarterA : AdvancedAnalytics.Quarter :=
  { quarter := "Q1", stats := [("kda_proxy", 0)] }

/-- A sample quarter story whose kda_proxy is 5. -/
def sampleQuarterB : AdvancedAnalytics.Quarter :=
  { quarter := "Q2", stats := [("kda_proxy", 5)] }

/-- C7 counterexample: on the kda series [0, 5] (first value 0, last value
nonzero) the reported change_pct is 0, not the claimed signed 100. -/
theorem change_pct_zero_first_reports_zero :
    ((AdvancedAnalytics.calculate_trends [sampleQuarterA, sampleQuarterB]).map
        (fun t => t.kda.change_pct)) = some 0
    ∧ (0 : ℚ) ≠ 100 ∧ (0 : ℚ) ≠ -100 := by
  refine ⟨?_, by norm_num, by norm_num⟩
  have hA : AdvancedAnalytics.safe_get sampleQuarterA "kda_proxy" = 0 := rfl
  have hval : (AdvancedAnalytics.metricEntry [sampleQuarterA, sampleQuarterB]
      ([sampleQuarterA, sampleQuarterB].map
        (fun q => AdvancedAnalytics.safe_get q "kda_proxy"))).change_pct = 0 := by
    rw [metricEntry_change_pct [sampleQuarterA, sampleQuarterB] sampleQuarterA
      sampleQuarterB "kda_proxy" rfl rfl, hA]
    norm_num
  simp only [AdvancedAnalytics.calculate_trends]
  rw [if_neg (by norm_num)]
  exact congrArg some hval

/-- C7 amended: for each of the five tracked metrics, the reported
percentage change is `(last - first) / max(0.01, first) * 100` when the
first value of the series is nonzero, and 0 when the first value is 0 — so
in the division-by-zero guard case (first = 0, last nonzero) the reported
change is 0, not a signed 100; and the divisor is `max(0.01, first)`,
which agrees with `abs first` only when `first ≥ 0.01`. -/
theorem calculate_trends_change_pct (qd : List AdvancedAnalytics.Quarter)
    (q0 qn : AdvancedAnalytics.Quarter)
    (hlen : 2 ≤ qd.length) (h0 : qd.head? = some q0) (hn : qd.getLast? = some qn) :
    ∃ t, AdvancedAnalytics.calculate_trends qd = some t
      ∧ t.kda.change_pct = (if AdvancedAnalytics.safe_get q0 "kda_proxy" ≠ 0 then
          (AdvancedAnalytics.safe_get qn "kda_proxy"
            - AdvancedAnalytics.safe_get q0 "kda_proxy")
            / max (1 / 100) (AdvancedAnalytics.safe_get q0 "kda_proxy") * 100
        else 0)
      ∧ t.cs_per_min.change_pct = (if AdvancedAnalytics.safe_get q0 "cs_per_min" ≠ 0 then
          (AdvancedAnalytics.safe_get qn "cs_per_min"
            - AdvancedAnalytics.safe_get q0 "cs_per_min")
            / max (1 / 100) (AdvancedAnalytics.safe_get q0 "cs_per_min") * 100
        else 0)
      ∧ t.gold_per_min.change_pct = (if AdvancedAnalytics.safe_get q0 "gold_per_min" ≠ 0 then
          (AdvancedAnalytics.safe_get qn "gold_per_min"
            - AdvancedAnalytics.safe_get q0 "gold_per_min")
            / max (1 / 100) (AdvancedAnalytics.safe_get q0 "gold_per_min") * 100
        else 0)
      ∧ t.vision_score.change_pct = (if AdvancedAnalytics.safe_get q0 "vision_score_per_min" ≠ 0 then
          (AdvancedAnalytics.safe_get qn "vision_score_per_min"
            - AdvancedAnalytics.safe_get q0 "vision_score_per_min")
            / max (1 / 100) (AdvancedAnalytics.safe_get q0 "vision_score_per_min") * 100
        else 0)
      ∧ t.kill_participation.change_pct = (if AdvancedAnalytics.safe_get q0 "kill_participation" ≠ 0 then
          (AdvancedAnalytics.safe_get qn "kill_participation"
            - AdvancedAnalytics.safe_get q0 "kill_participation")
            / max (1 / 100) (AdvancedAnalytics.safe_get q0 "kill_participation") * 100
        else 0) := by
  have hne : ¬(qd.length < 2) := by omega
  rw [AdvancedAnalytics.calculate_trends, if_neg hne]
  refine ⟨_, rfl, ?_, ?_, ?_, ?_, ?_⟩ <;>
    exact metricEntry_change_pct qd q0 qn _ h0 hn

/-- Witness for C7's amended claim on the two-quarter series with kda
going from 0 to 5. -/
theorem calculate_trends_change_pct_witness :
    ∃ t, AdvancedAnalytics.calculate_trends [sampleQuarterA, sampleQuarterB] = some t
      ∧ t.kda.change_pct = (if AdvancedAnalytics.safe_get sampleQuarterA "kda_proxy" ≠ 0 then
          (AdvancedAnalytics.safe_get sampleQuarterB "kda_proxy"
            - AdvancedAnalytics.safe_get sampleQuarterA "kda_proxy")
            / max (1 / 100) (AdvancedAnalytics.safe_get sampleQuarterA "kda_proxy") * 100
        else 0) := by
  obtain ⟨t, h1, h2, _⟩ := calculate_trends_change_pct
    [sampleQuarterA, sampleQuarterB] sampleQuarterA sampleQuarterB
    (by norm_num) rfl rfl
  exact ⟨t, h1, h2⟩

theorem replicate_getD_zero (n i : ℕ) :
    (List.replicate n (0 : ℝ)).getD i 0 = 0 := by
  rw [List.getD_eq_getElem?_getD, List.getElem?_replicate]
  split_ifs <;> rfl

theorem dget_keyed_map {β : Type} (g : String → β) (d : β) :
    ∀ (keys : List String) (k : String),
      PyDict.dget (keys.map (fun k2 => (k2, g k2))) k d
        = if k ∈ keys then g k else d := by
  intro keys
  induction keys with
  | nil => intro k; simp [PyDict.dget]
  | cons a rest ih =>
    intro k
    by_cases ha : a = k
    · subst ha
      simp [PyDict.dget, List.find?]
    · have hb : (a == k) = false := by simp [ha]
      simp only [List.map_cons, PyDict.dget, List.find?, hb]
      rw [← PyDict.dget]
      rw [ih k]
      simp [Ne.symm ha]

theorem zscore_col_replicate (n : ℕ) (c : ℝ) (hn : n ≠ 0) :
    StatsInference.zscore_col (List.replicate n c) = List.replicate n 0 := by
  have hc : (n : ℝ) ≠ 0 := Nat.cast_ne_zero.mpr hn
  simp only [StatsInference.zscore_col, List.length_replicate]
  rw [if_neg hn, List.sum_replicate, nsmul_eq_mul, mul_div_cancel_left₀ _ hc]
  simp [List.map_replicate, sub_self, List.sum_replicate, Real.sqrt_zero]

theorem zscore_col_singleton (x : ℝ) :
    StatsInference.zscore_col [x] = [0] := by
  have h := zscore_col_replicate 1 x (by norm_num)
  simpa using h

/-- C6: `zscore_rows` on an empty cohort returns an empty list; on a
singleton cohort returns exactly one vector that is all zeros (over the
cohort's sorted key set); and whenever every game has the same score in a
dimension (population standard deviation exactly 0, replaced by 1.0), the
normalized score of that dimension is 0 for every game. -/
theorem zscore_rows_edge_cases :
    StatsInference.zscore_rows [] = []
    ∧ (∀ r : List (String × ℝ), StatsInference.zscore_rows [r]
        = [(StatsInference.sortedKeys [r]).map (fun k => (k, (0 : ℝ)))])
    ∧ (∀ (rows : List (List (String × ℝ))) (k : String) (c : ℝ),
        (∀ r ∈ rows, PyDict.dget r k 0 = c) →
        (StatsInference.zscore_rows rows).map (fun r => PyDict.dget r k 0)
          = List.replicate rows.length 0) := by
  refine ⟨rfl, ?_, ?_⟩
  · intro r
    simp only [StatsInference.zscore_rows, List.isEmpty_cons, Bool.false_eq_true,
      if_false, List.length_cons, List.length_nil, List.range_succ,
      List.range_zero, List.nil_append, List.map_cons, List.map_nil]
    congr 1
    apply List.map_congr_left
    intro k _
    rw [zscore_col_singleton]
    rfl
  · intro rows k c hcol
    cases hrows : rows with
    | nil => rfl
    | cons r0 rest =>
      rw [← hrows]
      have hne : rows.isEmpty = false := by rw [hrows]; rfl
      simp only [StatsInference.zscore_rows, hne, Bool.false_eq_true, if_false]
      rw [List.map_map]
      apply List.eq_replicate_iff.mpr
      constructor
      · simp
      · intro b hb
        simp only [List.mem_map, List.mem_range, Function.comp] at hb
        obtain ⟨i, _, rfl⟩ := hb
        rw [dget_keyed_map]
        split_ifs with hk
        · have hcolrep : rows.map (fun r => PyDict.dget r k 0)
              = List.replicate rows.length c := by
            apply List.eq_replicate_iff.mpr
            refine ⟨by simp, ?_⟩
            intro b2 hb2
            obtain ⟨r2, hr2, rfl⟩ := List.mem_map.mp hb2
            exact hcol r2 hr2
          rw [hcolrep, zscore_col_replicate rows.length c (by rw [hrows]; simp)]
          exact replicate_getD_zero _ _
        · rfl

/-- Witness for C6: a two-game cohort with constant dimension A normalizes
dimension A to 0 in both games. -/
theorem zscore_rows_edge_cases_witness :
    (StatsInference.zscore_rows [[("A", (2 : ℝ))], [("A", 2)]]).map
      (fun r => PyDict.dget r "A" 0) = List.replicate 2 0 := by
  have h := zscore_rows_edge_cases.2.2 [[("A", (2 : ℝ))], [("A", 2)]] "A" 2
    (by
      intro r hr
      simp only [List.mem_cons, List.not_mem_nil, or_false] at hr
      rcases hr with rfl | rfl <;> rfl)
  exact h

theorem pyRoundInt_intCast (z : ℤ) : pyRoundInt ((z : ℚ)) = z := by
  simp only [pyRoundInt, Int.floor_intCast]
  rw [if_pos (by rw [sub_self]; norm_num)]

theorem pyRoundInt_le (q : ℚ) : (pyRoundInt q : ℚ) ≤ q + 1 / 2 := by
  have hfl := Int.floor_le q
  simp only [pyRoundInt]
  split_ifs with h1 h2 h3
  · linarith
  · push_cast
    linarith
  · linarith
  · push_cast
    have he : q - (⌊q⌋ : ℚ) = 1 / 2 := le_antisymm (not_lt.mp h2) (not_lt.mp h1)
    linarith

theorem pyRound1_le_100 (y : ℚ) (hy : y ≤ 100) : pyRound y 1 ≤ 100 := by
  have h10 : y * (10 : ℚ) ^ 1 = y * 10 := by norm_num
  show (pyRoundInt (y * 10 ^ 1) : ℚ) / 10 ^ 1 ≤ 100
  rw [h10]
  have hk : (pyRoundInt (y * 10) : ℚ) ≤ y * 10 + 1 / 2 := pyRoundInt_le _
  have hk3 : pyRoundInt (y * 10) ≤ 1000 := by
    have h2 : (pyRoundInt (y * 10) : ℚ) < 1001 := by linarith
    have h3 : pyRoundInt (y * 10) < 1001 := by exact_mod_cast h2
    omega
  have hkq : (pyRoundInt (y * 10) : ℚ) ≤ 1000 := by exact_mod_cast hk3
  have hpow : ((10 : ℚ) ^ 1) = 10 := by norm_num
  rw [hpow]
  linarith

theorem pyRound_100 : pyRound (100 : ℚ) 1 = 100 := by
  have h : (100 : ℚ) * 10 ^ 1 = ((1000 : ℤ) : ℚ) := by norm_num
  rw [pyRound, h, pyRoundInt_intCast]
  norm_num

theorem dset_ne_nil {β : Type} (m : List (String × β)) (k : String) (v : β) :
    PyDict.dset m k v ≠ [] := by
  rw [PyDict.dset]
  split_ifs with h
  · intro hc
    rw [List.map_eq_nil_iff] at hc
    subst hc
    simp at h
  · simp

theorem dset_mem {β : Type} (m : List (String × β)) (k : String) (v : β) :
    (k, v) ∈ PyDict.dset m k v := by
  rw [PyDict.dset]
  split_ifs with h
  · obtain ⟨q, hq⟩ := Option.isSome_iff_exists.mp h
    have hqm : q ∈ m := List.mem_of_find?_eq_some hq
    have hqk := List.find?_some hq
    refine List.mem_map.mpr ⟨q, hqm, ?_⟩
    simp only [hqk, if_true]
  · exact List.mem_append_right _ (List.mem_cons_self _ _)

theorem dget_fst_map {β γ : Type} (g : String × γ → β) (d : β) :
    ∀ (l : List (String × γ)) (k : String),
      PyDict.dget (l.map (fun w => (w.1, g w))) k d
        = (match l.find? (fun w => w.1 == k) with
            | some w => g w
            | none => d) := by
  intro l
  induction l with
  | nil => intro k; rfl
  | cons w rest ih =>
    intro k
    by_cases hw : w.1 = k
    · have hb : (w.1 == k) = true := by simp [hw]
      simp [PyDict.dget, List.find?, hb]
    · have hb : (w.1 == k) = false := by simp [hw]
      simp only [List.map_cons, PyDict.dget, List.find?, hb]
      exact ih k

theorem universalism_bonus_pos (bs : List StatsInference.Bundle) (hne : bs ≠ []) :
    0 < StatsInference.universalism_bonus bs := by
  have hchne : (bs.map (fun b => PyDict.dget b.univ "championId" "")) ≠ [] := by
    simpa using hne
  have hlnne : (bs.map (fun b => PyDict.dget b.univ "lane" "")) ≠ [] := by
    simpa using hne
  have h1 : 0 < ((bs.map (fun b => PyDict.dget b.univ "championId" "")).dedup.length : ℚ) := by
    exact_mod_cast List.length_pos.mpr (by rw [Ne, List.dedup_eq_nil]; exact hchne)
  have h2 : 0 < ((bs.map (fun b => PyDict.dget b.univ "lane" "")).dedup.length : ℚ) := by
    exact_mod_cast List.length_pos.mpr (by rw [Ne, List.dedup_eq_nil]; exact hlnne)
  have h3 : (0 : ℚ) < ((max 1 (bs.map (fun b => PyDict.dget b.univ "championId" "")).length : ℕ) : ℚ) := by
    exact_mod_cast lt_of_lt_of_le zero_lt_one (le_max_left 1 _)
  have h4 : (0 : ℚ) < ((max 1 (bs.map (fun b => PyDict.dget b.univ "lane" "")).length : ℕ) : ℚ) := by
    exact_mod_cast lt_of_lt_of_le zero_lt_one (le_max_left 1 _)
  simp only [StatsInference.universalism_bonus]
  have hcd := div_pos h1 h3
  have hld := div_pos h2 h4
  nlinarith

theorem score_values_univ_zero (bs : List StatsInference.Bundle) :
    ∀ v ∈ StatsInference.score_values bs, PyDict.dget v "Universalism" 0 = 0 := by
  intro v hv
  obtain ⟨b, _, rfl⟩ := List.mem_map.mp hv
  rw [dget_fst_map]
  have hfind : StatsInference.WEIGHTS.find? (fun w => w.1 == "Universalism")
      = some ("Universalism", []) := rfl
  rw [hfind]
  norm_num [StatsInference.clip]

theorem aggregate_univ_zero (vecs : List (List (String × ℚ)))
    (hz : ∀ v ∈ vecs, PyDict.dget v "Universalism" 0 = 0) :
    PyDict.dget (StatsInference.aggregate_mean vecs) "Universalism" 0 = 0 := by
  rw [StatsInference.aggregate_mean]
  split_ifs with h
  · rfl
  · rw [dget_keyed_map]
    split_ifs with hk
    · have hsum : (vecs.map (fun v => PyDict.dget v "Universalism" 0)).sum = 0 := by
        apply List.sum_eq_zero
        intro x hx
        obtain ⟨v, hv, rfl⟩ := List.mem_map.mp hx
        exact hz v hv
      rw [hsum, zero_div]
    · rfl

theorem stageValues_univ_mem (ms : List CreateJourney.Match) :
    ("Universalism",
      PyDict.dget (StatsInference.aggregate_mean (StatsInference.score_values
        (ms.map CreateJourney.extract_bundles_from_processed_match)))
        "Universalism" 0
      + StatsInference.universalism_bonus
          (ms.map CreateJourney.extract_bundles_from_processed_match))
      ∈ CreateJourney.stageValues ms :=
  dset_mem _ _ _

/-- For a non-empty chapter the pre-scaling maximum is strictly positive:
the Universalism entry equals the diversity bonus (its raw weighted score
is identically 0), and the bonus is positive on any non-empty cohort. -/
theorem stageValues_max_pos (ms : List CreateJourney.Match) (hms : ms ≠ []) :
    0 < PyDict.pyMax ((CreateJourney.stageValues ms).map Prod.snd) := by
  have hbne : ms.map CreateJourney.extract_bundles_from_processed_match ≠ [] := by
    simpa using hms
  have hagg : PyDict.dget (StatsInference.aggregate_mean
      (StatsInference.score_values
        (ms.map CreateJourney.extract_bundles_from_processed_match)))
      "Universalism" 0 = 0 :=
    aggregate_univ_zero _ (score_values_univ_zero _)
  have hbonus := universalism_bonus_pos _ hbne
  have hmem := stageValues_univ_mem ms
  have hsnd : PyDict.dget (StatsInference.aggregate_mean
        (StatsInference.score_values
          (ms.map CreateJourney.extract_bundles_from_processed_match)))
        "Universalism" 0
      + StatsInference.universalism_bonus
          (ms.map CreateJourney.extract_bundles_from_processed_match)
      ∈ (CreateJourney.stageValues ms).map Prod.snd :=
    List.mem_map.mpr ⟨_, hmem, rfl⟩
  have hv : 0 < PyDict.dget (StatsInference.aggregate_mean
        (StatsInference.score_values
          (ms.map CreateJourney.extract_bundles_from_processed_match)))
        "Universalism" 0
      + StatsInference.universalism_bonus
          (ms.map CreateJourney.extract_bundles_from_processed_match) := by
    rw [hagg]
    linarith
  exact lt_of_lt_of_le hv (PyDict.le_pyMax _ _ hsnd)

/-- C9: for a non-empty chapter whose pre-scaling maximum is positive, the
published value vector is exactly the per-dimension mean of the raw
weighted scores (with the diversity bonus added once to Universalism,
`stageValues`), rescaled by `v ↦ round(v / max * 100, 1)`; consequently
the largest published dimension value is exactly 100.  The pipeline never
calls `zscore_rows` (visible in `stageValues`), and a cohort z-score
aggregate would be zero-mean rather than 100-max. -/
theorem quarter_values_rescale (ms : List CreateJourney.Match) (_hms : ms ≠ [])
    (hpos : 0 < PyDict.pyMax ((CreateJourney.stageValues ms).map Prod.snd)) :
    ∃ out, CreateJourney.quarterValues ms = some out
      ∧ out = (CreateJourney.stageValues ms).map (fun p =>
          (p.1, pyRound (p.2 / PyDict.pyMax
            ((CreateJourney.stageValues ms).map Prod.snd) * 100) 1))
      ∧ PyDict.pyMax (out.map Prod.snd) = 100 := by
  have hne : CreateJourney.stageValues ms ≠ [] := dset_ne_nil _ _ _
  obtain ⟨p0, rest, hcons⟩ := List.exists_cons_of_ne_nil hne
  have hM0 : PyDict.pyMax ((CreateJourney.stageValues ms).map Prod.snd) ≠ 0 :=
    ne_of_gt hpos
  have hqv : CreateJourney.quarterValues ms =
      if PyDict.pyMax ((CreateJourney.stageValues ms).map Prod.snd) = 0 then none
      else some ((CreateJourney.stageValues ms).map (fun p =>
        (p.1, pyRound (p.2 / PyDict.pyMax
          ((CreateJourney.stageValues ms).map Prod.snd) * 100) 1))) := by
    simp only [CreateJourney.quarterValues]
  rw [hqv, if_neg hM0]
  refine ⟨_, rfl, rfl, ?_⟩
  rw [List.map_map]
  apply PyDict.pyMax_eq
  · have hMmem : PyDict.pyMax ((CreateJourney.stageValues ms).map Prod.snd)
        ∈ (CreateJourney.stageValues ms).map Prod.snd :=
      PyDict.pyMax_mem _ (by rw [hcons]; simp)
    obtain ⟨p, hp, hpsnd⟩ := List.mem_map.mp hMmem
    refine List.mem_map.mpr ⟨p, hp, ?_⟩
    show pyRound (p.2 / PyDict.pyMax
      ((CreateJourney.stageValues ms).map Prod.snd) * 100) 1 = 100
    rw [hpsnd, div_self hM0, one_mul]
    exact pyRound_100
  · intro x hx
    obtain ⟨p, hp, rfl⟩ := List.mem_map.mp hx
    have hple : p.2 ≤ PyDict.pyMax ((CreateJourney.stageValues ms).map Prod.snd) :=
      PyDict.le_pyMax _ _ (List.mem_map.mpr ⟨p, hp, rfl⟩)
    have harg : p.2 / PyDict.pyMax ((CreateJourney.stageValues ms).map Prod.snd)
        * 100 ≤ 100 := by
      have hd : p.2 / PyDict.pyMax ((CreateJourney.stageValues ms).map Prod.snd)
          ≤ 1 := (div_le_one hpos).mpr hple
      linarith
    exact pyRound1_le_100 _ harg

/-- A sample pre-processed match with empty feature groups. -/
def sampleMatch : CreateJourney.Match :=
  { achiev := [], power := [], selfD := [], secs := [], trad := [], bene := [],
    hed := [], stim := [],
    univ := [("championId", "157"), ("lane", "MIDDLE")] }

/-- Witness for C9 on a one-match chapter. -/
theorem quarter_values_rescale_witness :
    ([sampleMatch] : List CreateJourney.Match) ≠ []
    ∧ ∃ out, CreateJourney.quarterValues [sampleMatch] = some out
        ∧ out = (CreateJourney.stageValues [sampleMatch]).map (fun p =>
            (p.1, pyRound (p.2 / PyDict.pyMax
              ((CreateJourney.stageValues [sampleMatch]).map Prod.snd) * 100) 1))
        ∧ PyDict.pyMax (out.map Prod.snd) = 100 :=
  ⟨by simp, quarter_values_rescale [sampleMatch] (by simp)
    (stageValues_max_pos [sampleMatch] (by simp))⟩

/-- C8: processing a chapter with zero games does raise.  On the empty
match list the value pipeline reaches the 0-100 rescale with
`values = ("Universalism", 0.0)` and `max_val = 0.0` (the `if values
else 1` guard only covers an empty dict), so Python raises
`ZeroDivisionError` — modeled as `none`.  The stats path by itself would
degrade gracefully: `calculate_stats_from_preprocessed` returns zeroed
stats on the empty list, but it is never reached. -/
theorem empty_chapter_values_raise :
    CreateJourney.quarterValues [] = none
    ∧ CreateJourney.calculate_stats_from_preprocessed [] =
      [("games", 0), ("kda_proxy", 0.0), ("cs_per_min", 0.0),
       ("gold_per_min", 0.0), ("vision_per_min", 0.0),
       ("avg_kill_participation", 0.0), ("ping_rate_per_min", 0.0)] := by
  constructor
  · have hb : StatsInference.universalism_bonus [] = 0 := by
      norm_num [StatsInference.universalism_bonus]
    have hstage : CreateJourney.stageValues [] = [("Universalism", 0)] := by
      simp [CreateJourney.stageValues, StatsInference.score_values,
        StatsInference.aggregate_mean, PyDict.dset, PyDict.dget, hb, List.find?]
    simp [CreateJourney.quarterValues, hstage, PyDict.pyMax]
  · rfl

theorem process_fetch_writes (puuid : Option String) (item : FetchQuarter.Job)
    (msg : FetchQuarter.Msg) :
    (FetchQuarter.process_fetch puuid (some item) msg).head? = some
      { item with
          quarters := some (PyDict.dset
            (item.quarters.getD FetchQuarter.defaultQuarters) msg.quarter "fetching")
          status := "running" } := by
  cases puuid with
  | none => rfl
  | some p =>
    simp only [FetchQuarter.process_fetch]
    split_ifs <;> rfl

theorem can_process_Q3_eq (qmap : List (String × String)) :
    FetchQuarter.can_process qmap "Q3"
    = ((PyDict.dget qmap "Q1" "pending" == "fetched"
        || PyDict.dget qmap "Q1" "pending" == "ready")
      && ((PyDict.dget qmap "Q2" "pending" == "fetched"
        || PyDict.dget qmap "Q2" "pending" == "ready") && true)) := by
  rfl

/-- C2: the orchestrator handler processes a work item for quarter Qk (and
so writes Qk's status as `fetching`, its first persisted update) only when
every quarter with a lower ordinal is in `fetched` or `ready`; when the
gate fails the item is deferred: no update is persisted and the stored
record is unchanged.  In particular a work item for Q3 arriving while Q2
is neither `fetched` nor `ready` is deferred and leaves Q3's stored status
unchanged. -/
theorem handler_sequential_gate (puuid : Option String)
    (item : FetchQuarter.Job) (msg : FetchQuarter.Msg)
    (hjid : msg.jobId ≠ "") (hq : msg.quarter ∈ FetchQuarter.quarter_order) :
    (FetchQuarter.handler1 puuid (some item) msg ≠ [] →
      FetchQuarter.can_process (item.quarters.getD []) msg.quarter = true)
    ∧ (∀ j, (FetchQuarter.handler1 puuid (some item) msg).head? = some j →
        FetchQuarter.can_process (item.quarters.getD []) msg.quarter = true
        ∧ PyDict.dget (j.quarters.getD []) msg.quarter "pending" = "fetching")
    ∧ (FetchQuarter.can_process (item.quarters.getD []) msg.quarter = false →
        FetchQuarter.handler1 puuid (some item) msg = []
        ∧ FetchQuarter.runStore (some item)
            (FetchQuarter.handler1 puuid (some item) msg) = some item)
    ∧ (msg.quarter = "Q3" →
        PyDict.dget (item.quarters.getD []) "Q2" "pending" ≠ "fetched" →
        PyDict.dget (item.quarters.getD []) "Q2" "pending" ≠ "ready" →
        FetchQuarter.handler1 puuid (some item) msg = []
        ∧ FetchQuarter.runStore (some item)
            (FetchQuarter.handler1 puuid (some item) msg) = some item) := by
  have hqne : msg.quarter ≠ "" := by
    simp only [FetchQuarter.quarter_order, List.mem_cons, List.not_mem_nil,
      or_false] at hq
    rcases hq with h | h | h | h <;> rw [h] <;> decide
  have hH : FetchQuarter.handler1 puuid (some item) msg =
      if FetchQuarter.can_process (item.quarters.getD []) msg.quarter then
        FetchQuarter.process_fetch puuid (some item) msg
      else [] := by
    simp only [FetchQuarter.handler1]
    rw [if_pos ⟨hjid, hqne⟩, if_pos hq]
  by_cases hcp : FetchQuarter.can_process (item.quarters.getD []) msg.quarter = true
  · have hH2 : FetchQuarter.handler1 puuid (some item) msg =
        FetchQuarter.process_fetch puuid (some item) msg := by
      rw [hH, if_pos hcp]
    refine ⟨fun _ => hcp, ?_, ?_, ?_⟩
    · intro j hj
      rw [hH2, process_fetch_writes] at hj
      obtain rfl := Option.some.inj hj
      exact ⟨hcp, dget_dset_same _ _ _ _⟩
    · intro hfalse
      rw [hcp] at hfalse
      cases hfalse
    · intro h3 h2f h2r
      exfalso
      rw [h3, can_process_Q3_eq] at hcp
      simp only [Bool.and_eq_true, Bool.or_eq_true, beq_iff_eq] at hcp
      rcases hcp.2.1 with h | h
      · exact h2f h
      · exact h2r h
  · have hcpf : FetchQuarter.can_process (item.quarters.getD []) msg.quarter
        = false := by
      simpa using hcp
    have hH2 : FetchQuarter.handler1 puuid (some item) msg = [] := by
      rw [hH, if_neg (by simp [hcpf])]
    have hrun : FetchQuarter.runStore (some item)
        (FetchQuarter.handler1 puuid (some item) msg) = some item := by
      rw [hH2]
      rfl
    refine ⟨fun hne => absurd hH2 hne, ?_, fun _ => ⟨hH2, hrun⟩,
      fun _ _ _ => ⟨hH2, hrun⟩⟩
    intro j hj
    rw [hH2] at hj
    cases hj

/-- A sample job record halfway through its chapter sequence: Q1 fetched,
Q2 still pending. -/
def sampleJobMid : FetchQuarter.Job :=
  { platform := "euw1"
    riotId := "bst#0123"
    s3Base := "jobs/j1/"
    status := "running"
    quarters := some [("Q1", "fetched"), ("Q2", "pending")]
    quarterMatches := [("Q3", ["EUW1_3"])] }

/-- A freshly created job record, all quarters pending. -/
def sampleJobFresh : FetchQuarter.Job :=
  { platform := "euw1"
    riotId := "bst#0123"
    s3Base := "jobs/j1/"
    status := "queued"
    quarters := some FetchQuarter.defaultQuarters
    quarterMatches := [("Q1", ["EUW1_100"])] }

/-- Witness for C2: a Q3 work item arriving while Q2 is still `pending` is
deferred and the stored record is unchanged. -/
theorem handler_sequential_gate_witness :
    FetchQuarter.handler1 (some "PUUID-1") (some sampleJobMid)
        { jobId := "j1", quarter := "Q3", force := false } = []
    ∧ FetchQuarter.runStore (some sampleJobMid)
        (FetchQuarter.handler1 (some "PUUID-1") (some sampleJobMid)
          { jobId := "j1", quarter := "Q3", force := false })
      = some sampleJobMid :=
  (handler_sequential_gate (some "PUUID-1") sampleJobMid
    { jobId := "j1", quarter := "Q3", force := false }
    (by decide) (by decide)).2.2.2 (by decide) (by decide) (by decide)

/-- C4 counterexample: a failed puuid lookup while processing Q1 of a fresh
job leaves the job status `running` (not `error`) and leaves Q2 `pending`
(not `error`): the failure is not fatal to the whole job as claimed. -/
theorem puuid_failure_not_whole_job :
    ((FetchQuarter.process_fetch none (some sampleJobFresh)
        { jobId := "j1", quarter := "Q1", force := false }).getLast?.map
        (fun j => (j.status,
          PyDict.dget (j.quarters.getD []) "Q1" "pending",
          PyDict.dget (j.quarters.getD []) "Q2" "pending")))
      = some ("running", "error", "pending")
    ∧ ("running" : String) ≠ "error" ∧ ("pending" : String) ≠ "error" := by
  decide

/-- C4 amended: an identity-resolution (puuid) failure during quarter
processing marks only the triggering quarter `error` — the job status
keeps the `running` value written at the start of processing and every
other quarter's status is unchanged; during the discover-and-divide task
(`process_fetch_all`) the failure sets only the job status to `error`,
leaving the chapter statuses untouched. -/
theorem puuid_failure_scope (item : FetchQuarter.Job) (msg : FetchQuarter.Msg)
    (allIds : List String) :
    (∃ final, (FetchQuarter.process_fetch none (some item) msg).getLast? = some final
      ∧ final.status = "running"
      ∧ PyDict.dget (final.quarters.getD []) msg.quarter "pending" = "error"
      ∧ ∀ q2, q2 ≠ msg.quarter →
          PyDict.dget (final.quarters.getD []) q2 "pending"
          = PyDict.dget (item.quarters.getD FetchQuarter.defaultQuarters) q2 "pending")
    ∧ (FetchQuarter.process_fetch_all none allIds item).status = "error"
    ∧ (FetchQuarter.process_fetch_all none allIds item).quarters = item.quarters := by
  refine ⟨⟨_, rfl, rfl, dget_dset_same _ _ _ _, ?_⟩, rfl, rfl⟩
  intro q2 hq2
  show PyDict.dget (PyDict.dset (PyDict.dset
      (item.quarters.getD FetchQuarter.defaultQuarters) msg.quarter "fetching")
      msg.quarter "error") q2 "pending" = _
  rw [dget_dset_other _ _ _ _ _ hq2, dget_dset_other _ _ _ _ _ hq2]

/-- Witness for C4's amended claim at a concrete job: Q1 goes to `error`,
Q2 stays `pending`, the status stays `running`; and the discover-and-divide
path sets only the status. -/
theorem puuid_failure_scope_witness :
    (∃ final, (FetchQuarter.process_fetch none (some sampleJobFresh)
        { jobId := "j1", quarter := "Q1", force := false }).getLast? = some final
      ∧ final.status = "running"
      ∧ PyDict.dget (final.quarters.getD []) "Q1" "pending" = "error"
      ∧ ∀ q2, q2 ≠ "Q1" →
          PyDict.dget (final.quarters.getD []) q2 "pending"
          = PyDict.dget (sampleJobFresh.quarters.getD FetchQuarter.defaultQuarters)
              q2 "pending")
    ∧ (FetchQuarter.process_fetch_all none ["EUW1_100"] sampleJobFresh).status
      = "error" :=
  ⟨(puuid_failure_scope sampleJobFresh
      { jobId := "j1", quarter := "Q1", force := false } ["EUW1_100"]).1,
   (puuid_failure_scope sampleJobFresh
      { jobId := "j1", quarter := "Q1", force := false } ["EUW1_100"]).2.1⟩

/-- C10: with the default cap of 50 matches per quarter,
`common.divide_matches_into_quarters` assigns every identifier to exactly
one quarter for every input of at most 196 ids (the quarters concatenate
back to the input and their sizes are the balanced quarter sizes, any two
differing by at most 1); but for n = 199 the quarter sizes are
[50, 49, 49, 49], so only 197 of the 199 identifiers appear in any
quarter. -/
theorem divide_matches_cap50_spec :
    (∀ (ids : List ℕ), ids.length ≤ 196 →
      ((Common.divide_matches_into_quarters ids 50).map Prod.snd).flatten = ids
      ∧ (Common.divide_matches_into_quarters ids 50).map (fun p => p.2.length) =
          CreateJourney.quarter_sizes ids.length
      ∧ (∀ a ∈ CreateJourney.quarter_sizes ids.length,
          ∀ b ∈ CreateJourney.quarter_sizes ids.length, a ≤ b + 1))
    ∧ (Common.divide_matches_into_quarters (List.range 199) 50).map
        (fun p => p.2.length) = [50, 49, 49, 49]
    ∧ (((Common.divide_matches_into_quarters (List.range 199) 50).map
        Prod.snd).flatten).length = 197 := by
  refine ⟨?_, by rfl, by rfl⟩
  intro ids h
  have hs := divide_eq_slices ids h
  have hsum := CreateJourney.quarter_sizes_sum ids.length
  refine ⟨?_, ?_, quarter_sizes_diff _⟩
  · rw [hs]
    exact sliceBySizes_flatten _ _ (le_of_eq hsum.symm)
  · have hcomp : (Common.divide_matches_into_quarters ids 50).map
        (fun p => p.2.length)
        = ((Common.divide_matches_into_quarters ids 50).map Prod.snd).map
            List.length := by
      rw [List.map_map]
      rfl
    rw [hcomp, hs]
    exact sliceBySizes_map_length _ _ (le_of_eq hsum)

/-- Witness for C10 at a concrete input of 8 identifiers. -/
theorem divide_matches_cap50_spec_witness :
    (List.range 8).length ≤ 196
    ∧ (((Common.divide_matches_into_quarters (List.range 8) 50).map
        Prod.snd).flatten = List.range 8
      ∧ (Common.divide_matches_into_quarters (List.range 8) 50).map
          (fun p => p.2.length) = CreateJourney.quarter_sizes (List.range 8).length
      ∧ (∀ a ∈ CreateJourney.quarter_sizes (List.range 8).length,
          ∀ b ∈ CreateJourney.quarter_sizes (List.range 8).length, a ≤ b + 1)) :=
  ⟨by decide, divide_matches_cap50_spec.1 (List.range 8) (by decide)⟩

/-- C1: for every input list, `create_journey.main` partitions the
chronologically sorted matches into exactly 4 contiguous quarters; the
quarters concatenate back to the input (so their sizes sum to the number of
games), the sizes are `total // 4` plus one extra game for each of the first
`total % 4` quarters, any two sizes differ by at most one, and in
particular the sizes for n = 10 are [3,3,2,2] and for n = 7 are
[2,2,2,1]. -/
theorem partition_into_four_quarters {α : Type} (ms : List α) :
    (CreateJourney.quarters_matches ms).length = 4
    ∧ (CreateJourney.quarters_matches ms).flatten = ms
    ∧ (CreateJourney.quarters_matches ms).map List.length =
        CreateJourney.quarter_sizes ms.length
    ∧ (CreateJourney.quarter_sizes ms.length).sum = ms.length
    ∧ (∀ a ∈ CreateJourney.quarter_sizes ms.length,
        ∀ b ∈ CreateJourney.quarter_sizes ms.length, a ≤ b + 1)
    ∧ CreateJourney.quarter_sizes 10 = [3, 3, 2, 2]
    ∧ CreateJourney.quarter_sizes 7 = [2, 2, 2, 1] := by
  have hsum := CreateJourney.quarter_sizes_sum ms.length
  refine ⟨?_, ?_, ?_, hsum, quarter_sizes_diff _, by rfl, by rfl⟩
  · rw [CreateJourney.quarters_matches, sliceBySizes_length,
      CreateJourney.quarter_sizes_explicit]
    rfl
  · exact sliceBySizes_flatten _ _ (le_of_eq hsum.symm)
  · exact sliceBySizes_map_length _ _ (le_of_eq hsum)

/-- Witness for C1 at a concrete input of 10 games. -/
theorem partition_into_four_quarters_witness :
    (CreateJourney.quarters_matches (List.range 10)).flatten = List.range 10
    ∧ (CreateJourney.quarters_matches (List.range 10)).map List.length
        = CreateJourney.quarter_sizes (List.range 10).length
    ∧ CreateJourney.quarter_sizes 10 = [3, 3, 2, 2] :=
  ⟨(partition_into_four_quarters (List.range 10)).2.1,
   (partition_into_four_quarters (List.range 10)).2.2.1,
   (partition_into_four_quarters (List.range 10)).2.2.2.2.2.1⟩
